import Mathlib

/-!
# elastic-ingest-wasm-go: host ABI, session pool and processor

A shallow embedding of `pkg/webassembly` (`session.go`, `pool.go`,
`processor.go`, `status.go`) and theorems about it.

Conventions of the embedding:

* an `int32` is an `Int`; every `int32` addition of the source goes through
  `wrap32`, and the conversion `uint(x)` of an `int32` is `toUint` (two's
  complement on a 64-bit `uint`: wasmer-go only builds on 64-bit targets);
* guest linear memory is the list of its bytes, `DataSize()` is its length;
* a Go call ends in one of four ways, the constructors of `Res`: it returns
  a value, returns a non-nil `error`, panics, or the goroutine is ended by
  `runtime.Goexit` so that the call never returns;
* a slice of guest memory is the pair of its bounds (`GoSlice`), because the
  source writes through the slices it has obtained from `getGuestMemory`;
* external collaborators (the `Event`, `encoding/json`, the guest's exports,
  the logger's level filter, the host clock) are the fields of `Env`.
-/

namespace webassembly

/-! ## Machine integers -/

/-- Two's complement wrap-around of a mathematical integer into `int32`. -/
def wrap32 (x : Int) : Int := (x + 2 ^ 31) % 2 ^ 32 - 2 ^ 31

/-- The predicate "is a value of type `int32`". -/
def isInt32 (x : Int) : Prop := -(2 ^ 31) ≤ x ∧ x < 2 ^ 31

instance (x : Int) : Decidable (isInt32 x) := by
  unfold isInt32; exact inferInstance

/-- The Go conversion `uint(x)` of a signed integer, `uint` being 64 bits wide. -/
def toUint (x : Int) : Nat := (x % 2 ^ 64).toNat

/-- The expression `n - 1` in `uint` arithmetic: it wraps to `2^64 - 1` at `n = 0`. -/
def uintSub1 (n : Nat) : Nat := (n + (2 ^ 64 - 1)) % 2 ^ 64

/-! ## Results of Go calls -/

/-- A Go `error` value, represented by its message. -/
abbrev GoError := String

/-- The ways a Go call can end. -/
inductive Res (α : Type) where
  /-- The call returns normally (with a nil `error` where it has one). -/
  | ok (a : α)
  /-- The call returns a non-nil `error`. -/
  | error (e : GoError)
  /-- The call panics (index out of range, nil dereference, failed type assertion). -/
  | panic
  /-- The goroutine was ended by `runtime.Goexit`: the call never returns. -/
  | goexit
  deriving DecidableEq, Repr

/-! ## status.go -/

/-- The type `Status` (`type Status int32`) and its four named values. -/
abbrev Status := Int

def StatusOK : Status := 0
def StatusInternalFailure : Status := 1
def StatusInvalidArgument : Status := 2
def StatusNotFound : Status := 3

/-! ## Guest linear memory -/

abbrev Byte := UInt8

/-- Guest linear memory: `memory.Data()`; `memory.DataSize()` is its length. -/
abbrev Mem := List Byte

/-- A Go slice `Data()[low:high]` that aliases guest memory. -/
structure GoSlice where
  low : Nat
  high : Nat
  deriving DecidableEq, Repr

/-- The `len` of a slice. -/
def GoSlice.len (s : GoSlice) : Nat := s.high - s.low

/-- The bytes of `mem` at `[address, address+size)`. -/
def bytesAt (mem : Mem) (address size : Nat) : List Byte := (mem.drop address).take size

/-- The bytes a slice of guest memory shows. -/
def GoSlice.read (s : GoSlice) (mem : Mem) : List Byte := bytesAt mem s.low s.len

/-- A slice lies inside a memory of `m` bytes. -/
def GoSlice.inside (s : GoSlice) (m : Nat) : Prop := s.low ≤ s.high ∧ s.high ≤ m

instance (s : GoSlice) (m : Nat) : Decidable (s.inside m) := by
  unfold GoSlice.inside; exact inferInstance

/-- Overwrite `mem` from offset `off` on with `data` (the caller keeps it in range). -/
def writeAt (mem : Mem) (off : Nat) (data : List Byte) : Mem :=
  mem.take off ++ data ++ mem.drop (off + data.length)

/-- The builtin `copy(dst, src)` with `dst` a slice of guest memory: it copies
`min(len(dst), len(src))` bytes. -/
def copy (mem : Mem) (dst : GoSlice) (src : List Byte) : Mem :=
  writeAt mem dst.low (src.take dst.len)

/--
The method `session.getGuestMemory` (session.go:263-268).

```go
if uint(address+size) > hc.guestExports.memory.DataSize()-1 {
    return nil, fmt.Errorf("impossible address given size of available memory")
}
return hc.guestExports.memory.Data()[address : address+size], nil
```

`address+size` is an `int32` addition; the comparison is between `uint`s; the
slice expression panics unless `0 ≤ address ≤ address+size ≤ cap(Data())`.
-/
def getGuestMemory (mem : Mem) (address size : Int) : Res GoSlice :=
  let high := wrap32 (address + size)
  if toUint high > uintSub1 mem.length then
    .error "impossible address given size of available memory"
  else if 0 ≤ address ∧ address ≤ high ∧ high ≤ (mem.length : Int) then
    .ok ⟨address.toNat, high.toNat⟩
  else
    .panic

/-! ## Little-endian stores (`encoding/binary`) -/

/-- The `n` low bytes of `v`, least significant first. -/
def leBytes : Nat → Nat → List Byte
  | 0, _ => []
  | n + 1, v => UInt8.ofNat (v % 256) :: leBytes n (v / 256)

/-- The conversion `uint32(x)`. -/
def toUint32 (x : Int) : Nat := (x % 2 ^ 32).toNat

/-- The conversion `uint64(x)`. -/
def toUint64 (x : Int) : Nat := (x % 2 ^ 64).toNat

/-- The call `binary.LittleEndian.PutUint32(b, v)`: it panics (`none`) when `len(b) < 4`
and otherwise stores the four bytes of `v` at the start of `b`. -/
def PutUint32 (mem : Mem) (b : GoSlice) (v : Nat) : Option Mem :=
  if b.len < 4 then none else some (writeAt mem b.low (leBytes 4 v))

/-- The call `binary.LittleEndian.PutUint64(b, v)`: it panics (`none`) when `len(b) < 8`
and otherwise stores the eight bytes of `v` at the start of `b`. -/
def PutUint64 (mem : Mem) (b : GoSlice) (v : Nat) : Option Mem :=
  if b.len < 8 then none else some (writeAt mem b.low (leBytes 8 v))

/-! ## The session and its collaborators -/

/-- A value returned by a call of a guest export: an `i32`, or a value of another
WebAssembly type (on which the type assertion `rtn.(int32)` panics). -/
inductive wasmerValue where
  | I32 (v : Int)
  | other
  deriving DecidableEq, Repr

/-- One record written to the host logger `hc.log`. -/
inductive LogEntry where
  /-- A warning of the host itself (`hc.log.Warn`). -/
  | warn (msg : String)
  /-- A message of the guest, written by `elasticLog` with the guest's level. -/
  | guest (level : Int) (msg : List Byte)
  deriving DecidableEq, Repr

/-- The fields of `session` (session.go:35-48) that the host ABI reads and writes:
the bound event (`nil` until `guestProcess` binds one), the guest's exported
memory, and what has been written to the logger. -/
structure session (ε : Type) where
  event : Option ε
  memory : Mem
  log : List LogEntry

/-- The collaborators of a session, none of which is code of this package:
the `Event` interface (processor.go:30-34) over the event state `ε` with
field values `ν` (Go's `interface{}`), `encoding/json`, the guest's `malloc`
export (which runs guest code and may change guest memory), the level filter of
the logger (composed with `LogLevel.toZapLevel` for the guest's levels, and at
the level `Warn` for the host's own warnings), and the host clock. -/
structure Env (ε ν : Type) where
  GetField : ε → List Byte → ν × Bool
  PutField : ε → List Byte → ν → ε
  Marshal : ν → Except GoError (List Byte)
  Unmarshal : List Byte → Except GoError ν
  malloc : Mem → Int → Except GoError wasmerValue × Mem
  Check : Int → Bool
  WarnEnabled : Bool
  GetCurrentTimeNanoseconds : Int

/-- The call `hc.log.Warn(msg, ...)`: the warning is recorded when the level
filter of the logger lets the level `Warn` through. -/
def session.Warn {ε ν : Type} (hc : session ε) (env : Env ε ν) (msg : String) : session ε :=
  if env.WarnEnabled then { hc with log := hc.log ++ [LogEntry.warn msg] } else hc

/-- The method `session.elasticLog` (session.go:199-203): the entry is written when
`hc.log.Check(level.toZapLevel(), msg)` is not nil. -/
def elasticLog {ε ν : Type} (env : Env ε ν) (hc : session ε) (level : Int) (msg : List Byte) :
    session ε :=
  if env.Check level then { hc with log := hc.log ++ [LogEntry.guest level msg] } else hc

/-- The method `session.elasticGetField` (session.go:205-217). The result `none` is
Go's nil slice; `json.Marshal` never returns a nil slice together with a nil
error. A call of `GetField` on the nil interface panics. -/
def elasticGetField {ε ν : Type} (env : Env ε ν) (hc : session ε) (key : List Byte) :
    Res (Option (List Byte)) :=
  match hc.event with
  | none => .panic
  | some ev =>
    let (v, found) := env.GetField ev key
    if !found then .ok none
    else
      match env.Marshal v with
      | .error err => .error err
      | .ok data => .ok (some data)

/-- The call `runtime.Goexit()`: it ends the calling goroutine, so it never returns. -/
def runtime_Goexit : Res Unit := .goexit

/-- The method `session.elasticPutField` (session.go:219-230).

```go
runtime.LockOSThread()
defer runtime.UnlockOSThread()
runtime.Goexit()
var v interface{}
if err := json.Unmarshal(value, &v); err != nil {
    return err
}
hc.event.PutField(key, v)
return nil
```
-/
def elasticPutField {ε ν : Type} (env : Env ε ν) (hc : session ε) (key value : List Byte) :
    Res Unit × session ε :=
  match runtime_Goexit with
  | .error err => (.error err, hc)
  | .panic => (.panic, hc)
  | .goexit => (.goexit, hc)
  | .ok () =>
    match env.Unmarshal value with
    | .error err => (.error err, hc)
    | .ok v =>
      match hc.event with
      | none => (.panic, hc)
      | some ev => (.ok (), { hc with event := some (env.PutField ev key v) })

/-- The method `session.elasticGetCurrentTimeNanoseconds` (session.go:232-234). -/
def elasticGetCurrentTimeNanoseconds {ε ν : Type} (env : Env ε ν) (_hc : session ε) : Int :=
  env.GetCurrentTimeNanoseconds

/-- The method `session.guestMalloc` (session.go:236-249). -/
def guestMalloc {ε ν : Type} (env : Env ε ν) (hc : session ε) (size : Int) :
    Res (Int × GoSlice) × session ε :=
  match env.malloc hc.memory size with
  | (.error err, mem) => (.error err, { hc with memory := mem })
  | (.ok .other, mem) => (.panic, { hc with memory := mem })
  | (.ok (.I32 address), mem) =>
    match getGuestMemory mem address size with
    | .error err => (.error err, { hc with memory := mem })
    | .panic => (.panic, { hc with memory := mem })
    | .goexit => (.goexit, { hc with memory := mem })
    | .ok slice => (.ok (address, slice), { hc with memory := mem })

/-! ## The host ABI (`session.makeElasticExports`, session.go:78-197)

Each host function returns `([]wasmer.Value, error)`: `Res.ok s` is the normal
return of the status `s`, `Res.error e` is the return `nil, err`, which the
engine turns into a trap of the guest (an invocation error). -/

/-- The host function `elastic_get_field` (session.go:85-130). -/
def elastic_get_field {ε ν : Type} (env : Env ε ν) (hc : session ε)
    (keyPtr keyLen rtnPtr rtnLen : Int) : Res Status × session ε :=
  match getGuestMemory hc.memory keyPtr keyLen with
  | .error _ => (.ok StatusInvalidArgument, hc.Warn env "Failed to access guest memory.")
  | .panic => (.panic, hc)
  | .goexit => (.goexit, hc)
  | .ok keyBytes =>
    let key := keyBytes.read hc.memory
    match elasticGetField env hc key with
    | .error _ => (.ok StatusInternalFailure, hc.Warn env "elastic_get_field failed.")
    | .panic => (.panic, hc)
    | .goexit => (.goexit, hc)
    | .ok none => (.ok StatusNotFound, hc)
    | .ok (some data) =>
      let dataSize := data.length
      match guestMalloc env hc (wrap32 data.length) with
      | (.error _, hc1) => (.ok StatusInternalFailure, hc1.Warn env "Guest malloc failed.")
      | (.panic, hc1) => (.panic, hc1)
      | (.goexit, hc1) => (.goexit, hc1)
      | (.ok (addr, slice), hc1) =>
        let hc2 := { hc1 with memory := copy hc1.memory slice data }
        match getGuestMemory hc2.memory rtnPtr 4 with
        | .error _ => (.ok StatusInvalidArgument, hc2.Warn env "Failed to access guest memory.")
        | .panic => (.panic, hc2)
        | .goexit => (.goexit, hc2)
        | .ok slice =>
          match PutUint32 hc2.memory slice (toUint32 addr) with
          | none => (.panic, hc2)
          | some mem3 =>
            let hc3 := { hc2 with memory := mem3 }
            match getGuestMemory hc3.memory rtnLen 4 with
            | .error _ => (.ok StatusInvalidArgument, hc3.Warn env "Failed to access guest memory.")
            | .panic => (.panic, hc3)
            | .goexit => (.goexit, hc3)
            | .ok slice =>
              match PutUint32 hc3.memory slice (toUint32 dataSize) with
              | none => (.panic, hc3)
              | some mem4 => (.ok StatusOK, { hc3 with memory := mem4 })

/-- The host function `elastic_put_field` (session.go:137-155). -/
def elastic_put_field {ε ν : Type} (env : Env ε ν) (hc : session ε)
    (keyPtr keyLen valuePtr valueLen : Int) : Res Status × session ε :=
  match getGuestMemory hc.memory keyPtr keyLen with
  | .error err => (.error err, hc)
  | .panic => (.panic, hc)
  | .goexit => (.goexit, hc)
  | .ok key =>
    match getGuestMemory hc.memory valuePtr valueLen with
    | .error err => (.error err, hc)
    | .panic => (.panic, hc)
    | .goexit => (.goexit, hc)
    | .ok value =>
      match elasticPutField env hc (key.read hc.memory) (value.read hc.memory) with
      | (.error err, hc1) => (.error err, hc1)
      | (.panic, hc1) => (.panic, hc1)
      | (.goexit, hc1) => (.goexit, hc1)
      | (.ok (), hc1) => (.ok StatusOK, hc1)

/-- The host function `elastic_log` (session.go:163-175). -/
def elastic_log {ε ν : Type} (env : Env ε ν) (hc : session ε)
    (level msgAddr msgLen : Int) : Res Status × session ε :=
  match getGuestMemory hc.memory msgAddr msgLen with
  | .error err => (.error err, hc)
  | .panic => (.panic, hc)
  | .goexit => (.goexit, hc)
  | .ok msg => (.ok StatusOK, elasticLog env hc level (msg.read hc.memory))

/-- The host function `elastic_get_current_time_nanoseconds` (session.go:183-194). -/
def elastic_get_current_time_nanoseconds {ε ν : Type} (env : Env ε ν) (hc : session ε)
    (uint64Ptr : Int) : Res Status × session ε :=
  match getGuestMemory hc.memory uint64Ptr 8 with
  | .error err => (.error err, hc)
  | .panic => (.panic, hc)
  | .goexit => (.goexit, hc)
  | .ok data =>
    let now := elasticGetCurrentTimeNanoseconds env hc
    match PutUint64 hc.memory data (toUint64 now) with
    | none => (.panic, hc)
    | some mem1 => (.ok StatusOK, { hc with memory := mem1 })

/-- The method `session.guestProcess` (session.go:251-261). The guest's `process`
export runs guest code, which calls back into the host ABI on this session; its
whole effect on the session and its result are the function `process`. -/
def guestProcess {ε : Type} (process : session ε → Res wasmerValue × session ε)
    (hc : session ε) (evt : ε) : Res Int × session ε :=
  let hc := { hc with event := some evt }
  match process hc with
  | (.error err, hc1) => (.error err, hc1)
  | (.panic, hc1) => (.panic, hc1)
  | (.goexit, hc1) => (.goexit, hc1)
  | (.ok .other, hc1) => (.panic, hc1)
  | (.ok (.I32 status), hc1) => (.ok status, hc1)

/-! ## pool.go -/

/-- The type `sessionPool` (pool.go:25-28): the buffered channel `C` is the list
of its queued elements (oldest first) with its capacity. The factory `New` has
side effects (it instantiates the module), so its result at a call is an
argument of `Get`: `none` is the nil pointer `newSession` yields on failure. -/
structure sessionPool (σ : Type) where
  C : List σ
  cap : Nat

/-- The method `sessionPool.Get` (pool.go:48-55). -/
def sessionPool.Get {σ : Type} (p : sessionPool σ) (New : Option σ) :
    Option σ × sessionPool σ :=
  match p.C with
  | s :: rest => (some s, { p with C := rest })
  | [] => (New, p)

/-- The method `sessionPool.Put` (pool.go:57-64): a send on a channel whose buffer
is full is not ready, so the `default` branch runs. -/
def sessionPool.Put {σ : Type} (p : sessionPool σ) (s : Option σ) : sessionPool σ :=
  match s with
  | none => p
  | some s => if p.C.length < p.cap then { p with C := p.C ++ [s] } else p

/-- The function `newSessionPool` (pool.go:30-46); `s` is the result of its call of
`newSession`. The call `make(chan *session, maxSessions)` panics on a negative
size. -/
def newSessionPool {σ : Type} (s : Except GoError σ) (maxSessions : Int) :
    Res (sessionPool σ) :=
  match s with
  | .error err => .error err
  | .ok s =>
    if maxSessions < 0 then .panic
    else .ok ((⟨[], maxSessions.toNat⟩ : sessionPool σ).Put (some s))

/-! ## processor.go -/

/-- The method `Processor.Process` (processor.go:70-84). The deferred
`p.pool.Put(session)` runs on every way out, a panic and `Goexit` included. With
a nil session `guestProcess` panics on `hc.event = evt`. -/
def Process {ε : Type} (process : session ε → Res wasmerValue × session ε)
    (pool : sessionPool (session ε)) (New : Option (session ε)) (event : ε) :
    Res Unit × sessionPool (session ε) :=
  match pool.Get New with
  | (none, pool1) => (.panic, pool1.Put none)
  | (some hc, pool1) =>
    match guestProcess process hc event with
    | (.error err, hc1) => (.error err, pool1.Put (some hc1))
    | (.panic, hc1) => (.panic, pool1.Put (some hc1))
    | (.goexit, hc1) => (.goexit, pool1.Put (some hc1))
    | (.ok status, hc1) =>
      if StatusOK ≠ status then
        (.error ("process failed with status " ++ toString status), pool1.Put (some hc1))
      else (.ok (), pool1.Put (some hc1))

/-! ## Sequences of pool calls -/

/-- One call on the pool: `Get()`, with the session the factory would build at
that call, or `Put(s)`. -/
inductive PoolOp (σ : Type) where
  | get (New : Option σ)
  | put (s : Option σ)

/-- The pool after one call. -/
def sessionPool.step {σ : Type} (p : sessionPool σ) : PoolOp σ → sessionPool σ
  | .get New => (p.Get New).2
  | .put s => p.Put s

/-- The pool after a finite sequence of calls. -/
def sessionPool.run {σ : Type} (p : sessionPool σ) (ops : List (PoolOp σ)) : sessionPool σ :=
  ops.foldl sessionPool.step p

/-- A pool together with the sessions its callers hold: those handed out by
`Get` and not yet put back. -/
structure PoolState (σ : Type) where
  pool : sessionPool σ
  held : List σ

/-- The pool states the processor reaches: `NewProcessor` builds the pool, and
every `Process` call, alone or interleaved with others, does one `Get` and
later one `Put` of the session that `Get` handed out (processor.go:72-73). A
session the factory builds is a new object: no cached or held session is it. -/
inductive Reachable {σ : Type} [DecidableEq σ] : PoolState σ → Prop where
  | init (seed : σ) (maxSessions : Int) (p : sessionPool σ)
      (h : newSessionPool (.ok seed) maxSessions = .ok p) : Reachable ⟨p, []⟩
  | get (st : PoolState σ) (New : Option σ) (h : Reachable st)
      (fresh : ∀ s, New = some s → s ∉ st.pool.C ∧ s ∉ st.held) :
      Reachable ⟨(st.pool.Get New).2, st.held ++ (st.pool.Get New).1.toList⟩
  | put (st : PoolState σ) (s : σ) (h : Reachable st) (hs : s ∈ st.held) :
      Reachable ⟨st.pool.Put (some s), st.held.erase s⟩

/-! ## Ranges of guest memory -/

/-- The range `[address, address+size)` is one the check of `getGuestMemory`
lets through: it is non-negative and ends before the last byte of a memory of
`m` bytes (`address + size ≤ m - 1`), without `int32` overflow; `m` is at most
`2^32`, the largest 32-bit linear memory. -/
def Accepted (m : Nat) (address size : Int) : Prop :=
  m ≤ 2 ^ 32 ∧ 0 ≤ address ∧ 0 ≤ size ∧ address + size < (m : Int) ∧ address + size < 2 ^ 31

instance (m : Nat) (address size : Int) : Decidable (Accepted m address size) := by
  unfold Accepted; exact inferInstance

/-- The `int32` pair `(address, size)` points beyond a guest memory that is not
empty (and of at most `2^32` bytes): `address + size` exceeds its size. -/
def Exceeds (mem : Mem) (address size : Int) : Prop :=
  1 ≤ mem.length ∧ mem.length ≤ 2 ^ 32 ∧ isInt32 address ∧ isInt32 size ∧
    (mem.length : Int) < address + size

/-- The ranges `[a, a+n)` and `[b, b+k)` have no byte in common. -/
def Apart (a n b k : Int) : Prop := a + n ≤ b ∨ b + k ≤ a

instance (a n b k : Int) : Decidable (Apart a n b k) := by
  unfold Apart; exact inferInstance

/-! ## A test double (processor_test.go) and sample collaborators -/

/-- A small domain of field values for the examples: JSON `null` (Go's nil
interface value) and the booleans. -/
inductive Value where
  | null
  | bool (b : Bool)
  deriving DecidableEq, Repr

/-- The type `event` of the tests (processor_test.go:47-49): a map from field
name to value, here an association list. -/
structure event where
  fields : List (List Byte × Value)
  deriving DecidableEq, Repr

/-- The method `event.GetField` (processor_test.go:53-56): a missing key yields the
zero value and `false`. -/
def event.GetField (e : event) (key : List Byte) : Value × Bool :=
  match e.fields.lookup key with
  | some v => (v, true)
  | none => (Value.null, false)

/-- The method `event.PutField` (processor_test.go:58-60). -/
def event.PutField (e : event) (key : List Byte) (value : Value) : event :=
  ⟨(key, value) :: e.fields.filter (fun kv => kv.1 != key)⟩

/-- The bytes of the text `null`. -/
def nullBytes : List Byte := [110, 117, 108, 108]

/-- The bytes of the text `true`. -/
def trueBytes : List Byte := [116, 114, 117, 101]

/-- The bytes of the text `false`. -/
def falseBytes : List Byte := [102, 97, 108, 115, 101]

/-- A sample environment for the examples: the test event, `encoding/json`
restricted to the three texts `null`, `true` and `false`, a guest allocator that
hands out address 16 and leaves memory alone, a logger that lets every level
through (the host's warnings included) and a clock that reads 1. -/
def sampleEnv : Env event Value where
  GetField := event.GetField
  PutField := event.PutField
  Marshal := fun v =>
    match v with
    | .null => .ok nullBytes
    | .bool true => .ok trueBytes
    | .bool false => .ok falseBytes
  Unmarshal := fun data =>
    if data = nullBytes then .ok Value.null
    else if data = trueBytes then .ok (Value.bool true)
    else if data = falseBytes then .ok (Value.bool false)
    else .error "invalid character"
  malloc := fun mem _ => (.ok (.I32 16), mem)
  Check := fun _ => true
  WarnEnabled := true
  GetCurrentTimeNanoseconds := 1

/-- A guest memory of one page (65536 bytes) that starts with the given bytes
(at most a page of them) and is zero elsewhere. -/
def pageWith (start : List Byte) : Mem := start ++ List.replicate (65536 - start.length) 0

/-- A session bound to the test event with the given fields, with a zeroed guest
memory of one page that starts with the given bytes, and nothing logged. -/
def sessionOf (fields : List (List Byte × Value)) (start : List Byte) : session event :=
  ⟨some ⟨fields⟩, pageWith start, []⟩

/-- A session bound to the empty test event, with a zeroed guest memory of one
page that starts with the given bytes, and nothing logged. -/
def sessionWith (start : List Byte) : session event := sessionOf [] start

/-! ## The guest's `process` as a caller of the host ABI -/

/-- One call of the host ABI by the guest, with its `i32` arguments. -/
inductive HostCall where
  | get_field (keyPtr keyLen rtnPtr rtnLen : Int)
  | put_field (keyPtr keyLen valuePtr valueLen : Int)
  | log (level msgAddr msgLen : Int)
  | get_current_time_nanoseconds (uint64Ptr : Int)

/-- The host function a call names, run on the session the exports were made
for (`makeElasticExports` closes over `hc`, session.go:78). -/
def HostCall.run {ε ν : Type} (env : Env ε ν) (hc : session ε) : HostCall → Res Status × session ε
  | .get_field keyPtr keyLen rtnPtr rtnLen => elastic_get_field env hc keyPtr keyLen rtnPtr rtnLen
  | .put_field keyPtr keyLen valuePtr valueLen =>
    elastic_put_field env hc keyPtr keyLen valuePtr valueLen
  | .log level msgAddr msgLen => elastic_log env hc level msgAddr msgLen
  | .get_current_time_nanoseconds uint64Ptr =>
    elastic_get_current_time_nanoseconds env hc uint64Ptr

/-- The code of a guest's `process` export, as far as the host can tell: it
returns a value, traps, looks at its memory, writes its memory, or calls a
host function and goes on with the status it gets back. -/
inductive Guest where
  | ret (v : wasmerValue)
  | trap (err : GoError)
  | read (k : Mem → Guest)
  | store (f : Mem → Mem) (k : Guest)
  | call (c : HostCall) (k : Status → Guest)

/-- The call `hc.guestExports.process.Call()` for a guest with the given code: a
host function that returns `nil, err` traps the guest, and the call returns
that error; a panic or `Goexit` in a host function ends the call there. -/
def runGuest {ε ν : Type} (env : Env ε ν) : Guest → session ε → Res wasmerValue × session ε
  | .ret v, hc => (.ok v, hc)
  | .trap err, hc => (.error err, hc)
  | .read k, hc => runGuest env (k hc.memory) hc
  | .store f k, hc => runGuest env k { hc with memory := f hc.memory }
  | .call c k, hc =>
    match c.run env hc with
    | (.ok status, hc1) => runGuest env (k status) hc1
    | (.error err, hc1) => (.error err, hc1)
    | (.panic, hc1) => (.panic, hc1)
    | (.goexit, hc1) => (.goexit, hc1)

/-- The bound event each host function finds, call by call, while the guest's
`process` runs on the session `hc`. -/
def observedEvents {ε ν : Type} (env : Env ε ν) : Guest → session ε → List (Option ε)
  | .ret _, _ => []
  | .trap _, _ => []
  | .read k, hc => observedEvents env (k hc.memory) hc
  | .store f k, hc => observedEvents env k { hc with memory := f hc.memory }
  | .call c k, hc =>
    hc.event ::
      match c.run env hc with
      | (.ok status, hc1) => observedEvents env (k status) hc1
      | (.error _, _) => []
      | (.panic, _) => []
      | (.goexit, _) => []

/-- The states of one event: the Go code holds an event by reference and
`PutField` changes it in place, so the event `evt` is, later on, `evt` as it is
after some calls of `PutField`. -/
inductive Evolves {ε ν : Type} (env : Env ε ν) (evt : ε) : ε → Prop where
  | refl : Evolves env evt evt
  | put (ev : ε) (key : List Byte) (v : ν) (h : Evolves env evt ev) :
      Evolves env evt (env.PutField ev key v)

/-- The event reference `o` of a session is the event `evt`: it is not nil and
holds `evt` in one of its states. -/
def BoundTo {ε ν : Type} (env : Env ε ν) (evt : ε) (o : Option ε) : Prop :=
  ∃ ev, o = some ev ∧ Evolves env evt ev

end webassembly

open webassembly

/-! ## Facts about `getGuestMemory` -/

theorem getGuestMemory_error_of_reaches_end (mem : Mem) (address size : Int)
    (hm : 1 ≤ mem.length) (hm2 : mem.length ≤ 2 ^ 32)
    (ha : isInt32 address) (hs : isInt32 size)
    (h : (mem.length : Int) ≤ address + size) :
    getGuestMemory mem address size
      = Res.error "impossible address given size of available memory" := by
  unfold isInt32 at ha hs
  have hgt : toUint (wrap32 (address + size)) > uintSub1 mem.length := by
    unfold toUint wrap32 uintSub1
    norm_num at *
    omega
  simp [getGuestMemory, hgt]

theorem getGuestMemory_error_of_exceeds (mem : Mem) (address size : Int)
    (h : Exceeds mem address size) :
    getGuestMemory mem address size
      = Res.error "impossible address given size of available memory" := by
  obtain ⟨hm, hm2, ha, hs, hex⟩ := h
  exact getGuestMemory_error_of_reaches_end mem address size hm hm2 ha hs (by omega)

theorem getGuestMemory_ok_of_accepted (mem : Mem) (address size : Int)
    (h : Accepted mem.length address size) :
    getGuestMemory mem address size = Res.ok ⟨address.toNat, (address + size).toNat⟩ := by
  obtain ⟨hm, h0, h1, h2, h3⟩ := h
  have hw : wrap32 (address + size) = address + size := by
    unfold wrap32; norm_num at *; omega
  have hle : ¬ toUint (address + size) > uintSub1 mem.length := by
    clear hw
    unfold toUint uintSub1
    norm_num at *
    omega
  have hc : 0 ≤ address ∧ address ≤ address + size ∧ address + size ≤ (mem.length : Int) := by
    omega
  simp [getGuestMemory, hw, hle, hc]

theorem getGuestMemory_ok_inside (mem : Mem) (address size : Int) (s : GoSlice)
    (h : getGuestMemory mem address size = Res.ok s) : s.inside mem.length := by
  unfold getGuestMemory at h
  simp only at h
  split at h
  · cases h
  · split at h
    · rename_i hc
      cases h
      unfold GoSlice.inside
      simp only
      omega
    · cases h

theorem read_of_accepted (mem : Mem) (address size : Int) (h0 : 0 ≤ address) (h1 : 0 ≤ size) :
    GoSlice.read ⟨address.toNat, (address + size).toNat⟩ mem
      = bytesAt mem address.toNat size.toNat := by
  unfold GoSlice.read GoSlice.len
  congr 1
  simp only
  omega

/-! ## Facts about stores into guest memory -/

theorem length_writeAt (mem : Mem) (off : Nat) (data : List Byte)
    (h : off + data.length ≤ mem.length) : (writeAt mem off data).length = mem.length := by
  unfold writeAt
  simp only [List.length_append, List.length_take, List.length_drop]
  omega

theorem length_writeAt_accepted (mem : Mem) (address : Int) (data : List Byte)
    (h : Accepted mem.length address data.length) :
    (writeAt mem address.toNat data).length = mem.length := by
  obtain ⟨_, h0, _, h2, _⟩ := h
  exact length_writeAt mem address.toNat data (by omega)

theorem getElem?_writeAt (mem : Mem) (off : Nat) (data : List Byte)
    (h : off + data.length ≤ mem.length) (i : Nat) :
    (writeAt mem off data)[i]? =
      if i < off then mem[i]? else if i < off + data.length then data[i - off]? else mem[i]? := by
  unfold writeAt
  have hlen : (mem.take off).length = off := by
    rw [List.length_take]; omega
  by_cases h1 : i < off
  · rw [List.append_assoc, List.getElem?_append_left (by omega)]
    simp [h1, List.getElem?_take]
  · by_cases h2 : i < off + data.length
    · rw [List.append_assoc, List.getElem?_append_right (by omega), hlen,
        List.getElem?_append_left (by omega)]
      simp [h1, h2]
    · rw [List.getElem?_append_right (by simp [List.length_append]; omega)]
      simp only [List.length_append, hlen, List.getElem?_drop, h1, h2, if_false]
      congr 1
      omega

theorem getElem?_bytesAt (mem : Mem) (o n i : Nat) :
    (bytesAt mem o n)[i]? = if i < n then mem[o + i]? else none := by
  unfold bytesAt
  by_cases h : i < n
  · simp [h, List.getElem?_take, List.getElem?_drop]
  · simp [h, List.getElem?_take]

theorem bytesAt_writeAt_same (mem : Mem) (off : Nat) (data : List Byte)
    (h : off + data.length ≤ mem.length) :
    bytesAt (writeAt mem off data) off data.length = data := by
  apply List.ext_getElem?
  intro i
  rw [getElem?_bytesAt, getElem?_writeAt mem off data h]
  by_cases hi : i < data.length
  · have h1 : ¬ off + i < off := by omega
    have h2 : off + i < off + data.length := by omega
    simp [hi, h1]
  · simp only [hi, if_false]
    exact (List.getElem?_eq_none (by omega)).symm

theorem bytesAt_writeAt_apart (mem : Mem) (off : Nat) (data : List Byte)
    (h : off + data.length ≤ mem.length) (o n : Nat)
    (hd : o + n ≤ off ∨ off + data.length ≤ o) :
    bytesAt (writeAt mem off data) o n = bytesAt mem o n := by
  apply List.ext_getElem?
  intro i
  rw [getElem?_bytesAt, getElem?_bytesAt, getElem?_writeAt mem off data h]
  by_cases hi : i < n
  · simp only [hi, if_true]
    rcases hd with hd | hd
    · have h1 : o + i < off := by omega
      simp [h1]
    · have h1 : ¬ o + i < off := by omega
      have h2 : ¬ o + i < off + data.length := by omega
      simp [h1, h2]
  · simp [hi]

theorem length_leBytes (n v : Nat) : (leBytes n v).length = n := by
  induction n generalizing v with
  | zero => rfl
  | succ k ih => simp [leBytes, ih]

theorem toUint32_of_nonneg (a : Int) (h0 : 0 ≤ a) (h1 : a < 2 ^ 31) : toUint32 a = a.toNat := by
  unfold toUint32
  norm_num at *
  omega

/-! ## Facts about the sample sessions -/

theorem pageWith_length (start : List Byte) (h : start.length ≤ 65536) :
    (pageWith start).length = 65536 := by
  unfold pageWith
  rw [List.length_append, List.length_replicate]
  omega

theorem sessionOf_length (fields : List (List Byte × Value)) (start : List Byte)
    (h : start.length ≤ 65536) : (sessionOf fields start).memory.length = 65536 :=
  pageWith_length start h

theorem sessionWith_length (start : List Byte) (h : start.length ≤ 65536) :
    (sessionWith start).memory.length = 65536 := pageWith_length start h

theorem sessionWith_exceeds (start : List Byte) (address size : Int)
    (hs : start.length ≤ 65536)
    (h : isInt32 address ∧ isInt32 size ∧ (65536 : Int) < address + size) :
    Exceeds (sessionWith start).memory address size := by
  unfold Exceeds
  rw [sessionWith_length start hs]
  exact ⟨by decide, by decide, h.1, h.2.1, h.2.2⟩

theorem bytesAt_sessionOf_snd (fields : List (List Byte × Value)) (a b : List Byte) :
    bytesAt (sessionOf fields (a ++ b)).memory a.length b.length = b := by
  unfold bytesAt sessionOf pageWith
  rw [List.append_assoc, List.drop_left, List.take_left]

theorem bytesAt_sessionOf_fst (fields : List (List Byte × Value)) (a b : List Byte) :
    bytesAt (sessionOf fields (a ++ b)).memory 0 a.length = a := by
  unfold bytesAt sessionOf pageWith
  rw [List.drop_zero, List.append_assoc, List.take_left]

theorem bytesAt_sessionOf_whole (fields : List (List Byte × Value)) (a : List Byte) :
    bytesAt (sessionOf fields a).memory 0 a.length = a := by
  unfold bytesAt sessionOf pageWith
  rw [List.drop_zero, List.take_left]

theorem bytesAt_sessionWith_snd (a b : List Byte) :
    bytesAt (sessionWith (a ++ b)).memory a.length b.length = b :=
  bytesAt_sessionOf_snd [] a b

theorem bytesAt_sessionWith_fst (a b : List Byte) :
    bytesAt (sessionWith (a ++ b)).memory 0 a.length = a :=
  bytesAt_sessionOf_fst [] a b

theorem sample_key_present :
    sampleEnv.GetField ⟨[([107], Value.null)]⟩
      (bytesAt (sessionOf [([107], Value.null)] [107]).memory (0 : Int).toNat (1 : Int).toNat)
      = (Value.null, true) := by
  rw [show bytesAt (sessionOf [([107], Value.null)] [107]).memory (0 : Int).toNat
    (1 : Int).toNat = [107] from bytesAt_sessionOf_whole _ [107]]
  rfl

theorem sample_accepted (address size : Int)
    (h : Accepted 65536 address size) :
    Accepted (sessionOf [([107], Value.null)] [107]).memory.length address size := by
  rw [sessionOf_length _ _ (by decide)]; exact h

/-! ## Steps of the host functions -/

theorem elasticGetField_present {ε ν : Type} (env : Env ε ν) (hc : session ε)
    (key : List Byte) (ev : ε) (v : ν) (d : List Byte)
    (he : hc.event = some ev) (hf : env.GetField ev key = (v, true))
    (hd : env.Marshal v = Except.ok d) :
    elasticGetField env hc key = Res.ok (some d) := by
  simp [elasticGetField, he, hf, hd]

theorem guestMalloc_ok {ε ν : Type} (env : Env ε ν) (hc : session ε) (size a : Int)
    (mem1 : Mem)
    (hmal : env.malloc hc.memory size = (Except.ok (wasmerValue.I32 a), mem1))
    (ha : Accepted mem1.length a size) :
    guestMalloc env hc size
      = (Res.ok (a, ⟨a.toNat, (a + size).toNat⟩), { hc with memory := mem1 }) := by
  simp [guestMalloc, hmal, getGuestMemory_ok_of_accepted mem1 a size ha]

theorem elastic_get_field_key_rejected {ε ν : Type} (env : Env ε ν) (hc : session ε)
    (keyPtr keyLen rtnPtr rtnLen : Int) (e : GoError)
    (h : getGuestMemory hc.memory keyPtr keyLen = Res.error e) :
    elastic_get_field env hc keyPtr keyLen rtnPtr rtnLen
      = (Res.ok StatusInvalidArgument, hc.Warn env "Failed to access guest memory.") := by
  simp [elastic_get_field, h]

theorem elastic_get_field_absent {ε ν : Type} (env : Env ε ν) (hc : session ε)
    (keyPtr keyLen rtnPtr rtnLen : Int) (keyBytes : GoSlice) (ev : ε)
    (hk : getGuestMemory hc.memory keyPtr keyLen = Res.ok keyBytes)
    (he : hc.event = some ev)
    (hf : (env.GetField ev (keyBytes.read hc.memory)).2 = false) :
    elastic_get_field env hc keyPtr keyLen rtnPtr rtnLen = (Res.ok StatusNotFound, hc) := by
  have hg : elasticGetField env hc (keyBytes.read hc.memory) = Res.ok none := by
    simp [elasticGetField, he, hf]
  simp [elastic_get_field, hk, hg]

theorem elastic_get_field_present {ε ν : Type} (env : Env ε ν) (hc : session ε)
    (keyPtr keyLen rtnPtr rtnLen : Int) (ev : ε) (v : ν) (d : List Byte) (a : Int) (mem1 : Mem)
    (hk : Accepted hc.memory.length keyPtr keyLen)
    (he : hc.event = some ev)
    (hf : env.GetField ev (bytesAt hc.memory keyPtr.toNat keyLen.toNat) = (v, true))
    (hd : env.Marshal v = Except.ok d)
    (hmal : env.malloc hc.memory d.length = (Except.ok (wasmerValue.I32 a), mem1))
    (ha : Accepted mem1.length a d.length)
    (hp : Accepted mem1.length rtnPtr 4) (hl : Accepted mem1.length rtnLen 4) :
    elastic_get_field env hc keyPtr keyLen rtnPtr rtnLen
      = (Res.ok StatusOK,
          { hc with memory :=
              (writeAt (writeAt (writeAt mem1 a.toNat d) rtnPtr.toNat (leBytes 4 a.toNat))
                rtnLen.toNat (leBytes 4 d.length)) }) := by
  have hkey := getGuestMemory_ok_of_accepted hc.memory keyPtr keyLen hk
  have hread := read_of_accepted hc.memory keyPtr keyLen hk.2.1 hk.2.2.1
  have hg := elasticGetField_present env hc _ ev v d he hf hd
  have hdl : (d.length : Int) < 2 ^ 31 := by
    have h1 := ha.2.1
    have h2 := ha.2.2.2.2
    omega
  have hw : wrap32 (d.length : Int) = d.length := by
    unfold wrap32; norm_num at *; omega
  have hgm := guestMalloc_ok env hc d.length a mem1 hmal ha
  obtain ⟨hm, ha0, _, ha2, ha3⟩ := ha
  have hcopy : copy mem1 ⟨a.toNat, (a + d.length).toNat⟩ d = writeAt mem1 a.toNat d := by
    unfold copy GoSlice.len
    have : (a + (d.length : Int)).toNat - a.toNat = d.length := by omega
    simp only [this, List.take_length]
  have hlen2 : (writeAt mem1 a.toNat d).length = mem1.length :=
    length_writeAt mem1 a.toNat d (by omega)
  have hp2 : Accepted (writeAt mem1 a.toNat d).length rtnPtr 4 := by rw [hlen2]; exact hp
  have hs2 := getGuestMemory_ok_of_accepted _ rtnPtr 4 hp2
  have hput2 : PutUint32 (writeAt mem1 a.toNat d) ⟨rtnPtr.toNat, (rtnPtr + 4).toNat⟩ (toUint32 a)
      = some (writeAt (writeAt mem1 a.toNat d) rtnPtr.toNat (leBytes 4 a.toNat)) := by
    have : ¬ (rtnPtr + 4).toNat - rtnPtr.toNat < 4 := by
      have := hp.2.1; omega
    simp [PutUint32, GoSlice.len, this, toUint32_of_nonneg a ha0 (by omega)]
  have hlen3 : (writeAt (writeAt mem1 a.toNat d) rtnPtr.toNat (leBytes 4 a.toNat)).length
      = mem1.length := by
    rw [length_writeAt _ _ _ (by
      rw [hlen2, length_leBytes]; have := hp.2.1; have := hp.2.2.2.1; omega), hlen2]
  have hl3 : Accepted
      (writeAt (writeAt mem1 a.toNat d) rtnPtr.toNat (leBytes 4 a.toNat)).length rtnLen 4 := by
    rw [hlen3]; exact hl
  have hs3 := getGuestMemory_ok_of_accepted _ rtnLen 4 hl3
  have hput3 : PutUint32 (writeAt (writeAt mem1 a.toNat d) rtnPtr.toNat (leBytes 4 a.toNat))
        ⟨rtnLen.toNat, (rtnLen + 4).toNat⟩ (toUint32 (d.length : Int))
      = some (writeAt (writeAt (writeAt mem1 a.toNat d) rtnPtr.toNat (leBytes 4 a.toNat))
          rtnLen.toNat (leBytes 4 d.length)) := by
    have : ¬ (rtnLen + 4).toNat - rtnLen.toNat < 4 := by
      have := hl.2.1; omega
    simp [PutUint32, GoSlice.len, this, toUint32_of_nonneg (d.length : Int) (by omega) (by omega)]
  simp [elastic_get_field, hkey, hread, hg, hw, hgm, hcopy, hs2, hput2, hs3, hput3]

theorem elastic_put_field_goexit {ε ν : Type} (env : Env ε ν) (hc : session ε)
    (keyPtr keyLen valuePtr valueLen : Int) (key value : GoSlice)
    (hk : getGuestMemory hc.memory keyPtr keyLen = Res.ok key)
    (hv : getGuestMemory hc.memory valuePtr valueLen = Res.ok value) :
    elastic_put_field env hc keyPtr keyLen valuePtr valueLen = (Res.goexit, hc) := by
  simp [elastic_put_field, hk, hv, elasticPutField, runtime_Goexit]

theorem elastic_put_field_never_returns_status {ε ν : Type} (env : Env ε ν) (hc : session ε)
    (keyPtr keyLen valuePtr valueLen : Int) (s : Status) :
    (elastic_put_field env hc keyPtr keyLen valuePtr valueLen).1 ≠ Res.ok s ∧
    (elastic_put_field env hc keyPtr keyLen valuePtr valueLen).2 = hc := by
  unfold elastic_put_field
  cases getGuestMemory hc.memory keyPtr keyLen <;>
    cases getGuestMemory hc.memory valuePtr valueLen <;>
    simp [elasticPutField, runtime_Goexit]

theorem elastic_put_field_unchanged {ε ν : Type} (env : Env ε ν) (hc : session ε)
    (keyPtr keyLen valuePtr valueLen : Int) :
    (elastic_put_field env hc keyPtr keyLen valuePtr valueLen).1 ≠ Res.ok StatusOK ∧
    (elastic_put_field env hc keyPtr keyLen valuePtr valueLen).2 = hc := by
  unfold elastic_put_field
  cases getGuestMemory hc.memory keyPtr keyLen <;>
    cases getGuestMemory hc.memory valuePtr valueLen <;>
    simp [elasticPutField, runtime_Goexit]

theorem elastic_log_rejected {ε ν : Type} (env : Env ε ν) (hc : session ε)
    (level msgAddr msgLen : Int) (e : GoError)
    (h : getGuestMemory hc.memory msgAddr msgLen = Res.error e) :
    elastic_log env hc level msgAddr msgLen = (Res.error e, hc) := by
  simp [elastic_log, h]

theorem elastic_get_current_time_nanoseconds_rejected {ε ν : Type} (env : Env ε ν)
    (hc : session ε) (uint64Ptr : Int) (e : GoError)
    (h : getGuestMemory hc.memory uint64Ptr 8 = Res.error e) :
    elastic_get_current_time_nanoseconds env hc uint64Ptr = (Res.error e, hc) := by
  simp [elastic_get_current_time_nanoseconds, h]

/-! ## The bounds check (C1) -/

/-- Claim C1 at its failing input: on a guest memory of one page the call
`getGuestMemory(-1, 2)` passes the size check (`uint(1) > 65535` is false) and
then evaluates `Data()[-1:1]`, a run-time panic, where the claim promises an
error or a slice inside guest memory; so does `getGuestMemory(5, -3)` on
`Data()[5:2]`; and with an empty memory `DataSize()-1` wraps around, so that
`getGuestMemory(0, 1)` panics on `Data()[0:1]`. -/
theorem getGuestMemory_panics_on_negative_address :
    getGuestMemory (pageWith []) (-1) 2 = Res.panic ∧
    getGuestMemory (pageWith []) 5 (-3) = Res.panic ∧
    getGuestMemory [] 0 1 = Res.panic := by
  have hl : (pageWith []).length = 65536 := pageWith_length [] (by decide)
  refine ⟨?_, ?_, ?_⟩
  · unfold getGuestMemory; rw [hl]; decide
  · unfold getGuestMemory; rw [hl]; decide
  · decide

theorem elastic_put_field_key_rejected {ε ν : Type} (env : Env ε ν) (hc : session ε)
    (keyPtr keyLen valuePtr valueLen : Int) (e : GoError)
    (h : getGuestMemory hc.memory keyPtr keyLen = Res.error e) :
    elastic_put_field env hc keyPtr keyLen valuePtr valueLen = (Res.error e, hc) := by
  simp [elastic_put_field, h]

theorem elastic_put_field_value_rejected {ε ν : Type} (env : Env ε ν) (hc : session ε)
    (keyPtr keyLen valuePtr valueLen : Int) (key : GoSlice) (e : GoError)
    (hk : getGuestMemory hc.memory keyPtr keyLen = Res.ok key)
    (h : getGuestMemory hc.memory valuePtr valueLen = Res.error e) :
    elastic_put_field env hc keyPtr keyLen valuePtr valueLen = (Res.error e, hc) := by
  simp [elastic_put_field, hk, h]

/-! ## Ranges out of bounds (C2) -/

/-- Claim C2 at its failing inputs: on a guest memory of one page (65536 bytes)
the pairs `(0, 70000)` and `(65530, 8)` exceed the size of guest memory. Handed
`(0, 70000)` as key, or as value next to the in-bounds key `[0, 1)`,
`elastic_put_field` returns the error of `getGuestMemory` as an invocation
error (`return nil, err`); so does `elastic_log` handed it as message, and
`elastic_get_current_time_nanoseconds` handed the address 65530. None returns
the status `InvalidArgument` as a normal result, which the sibling
`elastic_get_field` does for the same key pair. Guest memory and the event are
unchanged in each case. -/
theorem host_functions_trap_out_of_bounds :
    Exceeds (sessionWith []).memory 0 70000 ∧
    Exceeds (sessionWith []).memory 65530 8 ∧
    Accepted (sessionWith []).memory.length 0 1 ∧
    elastic_put_field sampleEnv (sessionWith []) 0 70000 0 1
      = (Res.error "impossible address given size of available memory", sessionWith []) ∧
    elastic_put_field sampleEnv (sessionWith []) 0 1 0 70000
      = (Res.error "impossible address given size of available memory", sessionWith []) ∧
    elastic_log sampleEnv (sessionWith []) 3 0 70000
      = (Res.error "impossible address given size of available memory", sessionWith []) ∧
    elastic_get_current_time_nanoseconds sampleEnv (sessionWith []) 65530
      = (Res.error "impossible address given size of available memory", sessionWith []) ∧
    elastic_get_field sampleEnv (sessionWith []) 0 70000 0 4
      = (Res.ok StatusInvalidArgument,
          (sessionWith []).Warn sampleEnv "Failed to access guest memory.") ∧
    (Res.error "impossible address given size of available memory" : Res Status)
      ≠ Res.ok StatusInvalidArgument := by
  have h1 : Exceeds (sessionWith []).memory 0 70000 :=
    sessionWith_exceeds [] 0 70000 (by decide) (by decide)
  have h2 : Exceeds (sessionWith []).memory 65530 8 :=
    sessionWith_exceeds [] 65530 8 (by decide) (by decide)
  have h3 : Accepted (sessionWith []).memory.length 0 1 := by
    unfold Accepted; rw [sessionWith_length [] (by decide)]; decide
  have e1 := getGuestMemory_error_of_exceeds _ 0 70000 h1
  have e2 := getGuestMemory_error_of_exceeds _ 65530 8 h2
  exact ⟨h1, h2, h3,
    elastic_put_field_key_rejected sampleEnv _ 0 70000 0 1 _ e1,
    elastic_put_field_value_rejected sampleEnv _ 0 1 0 70000 _ _
      (getGuestMemory_ok_of_accepted _ 0 1 h3) e1,
    elastic_log_rejected sampleEnv _ 3 0 70000 _ e1,
    elastic_get_current_time_nanoseconds_rejected sampleEnv _ 65530 _ e2,
    elastic_get_field_key_rejected sampleEnv _ 0 70000 0 4 _ e1,
    by simp⟩

/-! ## Writing a field (C3, C4) -/

/-- Claim C3 at its failing input: guest memory starts with the bytes of `knull`,
the key `k` is the range `[0, 1)` and the value `null` the range `[1, 5)`, both
in bounds, and `null` decodes to the JSON value null. The call of
`elastic_put_field` ends the goroutine in `runtime.Goexit` before it decodes
anything: it returns no status, the session is untouched, and `GetField` of
`k` on the bound event still answers "not found". -/
theorem elastic_put_field_goexit_before_store :
    Accepted (sessionWith ([107] ++ nullBytes)).memory.length 0 1 ∧
    Accepted (sessionWith ([107] ++ nullBytes)).memory.length 1 4 ∧
    bytesAt (sessionWith ([107] ++ nullBytes)).memory 0 1 = [107] ∧
    bytesAt (sessionWith ([107] ++ nullBytes)).memory 1 4 = nullBytes ∧
    sampleEnv.Unmarshal nullBytes = Except.ok Value.null ∧
    elastic_put_field sampleEnv (sessionWith ([107] ++ nullBytes)) 0 1 1 4
      = (Res.goexit, sessionWith ([107] ++ nullBytes)) ∧
    (sessionWith ([107] ++ nullBytes)).event = some ⟨[]⟩ ∧
    event.GetField ⟨[]⟩ [107] = (Value.null, false) := by
  have hl : (sessionWith ([107] ++ nullBytes)).memory.length = 65536 :=
    sessionWith_length _ (by decide)
  have a1 : Accepted (sessionWith ([107] ++ nullBytes)).memory.length 0 1 := by
    unfold Accepted; rw [hl]; decide
  have a2 : Accepted (sessionWith ([107] ++ nullBytes)).memory.length 1 4 := by
    unfold Accepted; rw [hl]; decide
  refine ⟨a1, a2, bytesAt_sessionWith_fst [107] nullBytes,
    bytesAt_sessionWith_snd [107] nullBytes, rfl, ?_, rfl, rfl⟩
  · exact elastic_put_field_goexit sampleEnv _ 0 1 1 4 _ _
      (getGuestMemory_ok_of_accepted _ 0 1 a1) (getGuestMemory_ok_of_accepted _ 1 4 a2)

/-- Claim C4 at its failing input: guest memory starts with the bytes of `k{`,
the key `k` is the range `[0, 1)` and the value the range `[1, 2)`, in bounds
and not valid JSON. The call of `elastic_put_field` ends the goroutine in
`runtime.Goexit`: it returns no status at all, where the claim promises the
status `InvalidArgument` as a normal result. -/
theorem elastic_put_field_goexit_on_invalid_json :
    Accepted (sessionWith ([107] ++ [123])).memory.length 0 1 ∧
    Accepted (sessionWith ([107] ++ [123])).memory.length 1 1 ∧
    bytesAt (sessionWith ([107] ++ [123])).memory 1 1 = [123] ∧
    sampleEnv.Unmarshal [123] = Except.error "invalid character" ∧
    elastic_put_field sampleEnv (sessionWith ([107] ++ [123])) 0 1 1 1
      = (Res.goexit, sessionWith ([107] ++ [123])) ∧
    (Res.goexit : Res Status) ≠ Res.ok StatusInvalidArgument := by
  have hl : (sessionWith ([107] ++ [123])).memory.length = 65536 :=
    sessionWith_length _ (by decide)
  have a1 : Accepted (sessionWith ([107] ++ [123])).memory.length 0 1 := by
    unfold Accepted; rw [hl]; decide
  have a2 : Accepted (sessionWith ([107] ++ [123])).memory.length 1 1 := by
    unfold Accepted; rw [hl]; decide
  refine ⟨a1, a2, bytesAt_sessionWith_snd [107] [123], rfl, ?_, by decide⟩
  exact elastic_put_field_goexit sampleEnv _ 0 1 1 1 _ _
    (getGuestMemory_ok_of_accepted _ 0 1 a1) (getGuestMemory_ok_of_accepted _ 1 1 a2)

/-! ## Reading a field (C5, C6) -/

/-- Claim C5 at its failing input: on a guest memory of one page the key range
`[65533, 65536)` is in bounds (it ends with the last byte of memory) and the
key is absent from the empty event, yet `elastic_get_field` returns
`InvalidArgument` (2), not `NotFound` (3): `getGuestMemory` compares
`address+size` with `DataSize()-1` and turns the range down. -/
theorem elastic_get_field_rejects_key_at_end_of_memory :
    (65533 : Int) + 3 ≤ (sessionWith []).memory.length ∧
    (sessionWith []).event = some ⟨[]⟩ ∧
    (sampleEnv.GetField ⟨[]⟩ (bytesAt (sessionWith []).memory 65533 3)).2 = false ∧
    elastic_get_field sampleEnv (sessionWith []) 65533 3 0 4
      = (Res.ok StatusInvalidArgument,
          (sessionWith []).Warn sampleEnv "Failed to access guest memory.") ∧
    (Res.ok StatusInvalidArgument : Res Status) ≠ Res.ok StatusNotFound := by
  have hl : (sessionWith []).memory.length = 65536 := sessionWith_length _ (by decide)
  refine ⟨by rw [hl]; decide, rfl, rfl, ?_, by decide⟩
  exact elastic_get_field_key_rejected sampleEnv _ 65533 3 0 4 _
    (getGuestMemory_error_of_reaches_end _ 65533 3 (by rw [hl]; decide) (by rw [hl]; decide)
      (by decide) (by decide) (by rw [hl]; decide))

/-- Claim C6 fails when the out-pointers share their bytes: the key `k` is in
bounds and present with the value null, which serialises to the four bytes of
`null`; the allocator returns 16 and `[16, 20)` is in bounds; `out_ptr_addr`
and `out_len_addr` are both 32, in bounds. The call returns `OK`, and the four
bytes at 32 hold the length 4, the later store, not the address 16. -/
theorem elastic_get_field_shared_out_pointer :
    ∃ hc1 : session event,
      elastic_get_field sampleEnv (sessionOf [([107], Value.null)] [107]) 0 1 32 32
        = (Res.ok StatusOK, hc1) ∧
      bytesAt hc1.memory 32 4 = leBytes 4 4 ∧
      bytesAt hc1.memory 32 4 ≠ leBytes 4 16 := by
  have hlen : (sessionOf [([107], Value.null)] [107]).memory.length = 65536 :=
    sessionOf_length _ _ (by decide)
  have hk : Accepted (sessionOf [([107], Value.null)] [107]).memory.length 0 1 := by
    unfold Accepted; rw [hlen]; decide
  have ha : Accepted (sessionOf [([107], Value.null)] [107]).memory.length 16
      (nullBytes.length : Int) := by
    unfold Accepted; rw [hlen]; decide
  have hp : Accepted (sessionOf [([107], Value.null)] [107]).memory.length 32 4 := by
    unfold Accepted; rw [hlen]; decide
  have hf : sampleEnv.GetField ⟨[([107], Value.null)]⟩
      (bytesAt (sessionOf [([107], Value.null)] [107]).memory (0 : Int).toNat (1 : Int).toNat)
      = (Value.null, true) := by
    rw [show bytesAt (sessionOf [([107], Value.null)] [107]).memory (0 : Int).toNat
      (1 : Int).toNat = [107] from bytesAt_sessionOf_whole _ [107]]
    rfl
  have h := elastic_get_field_present sampleEnv (sessionOf [([107], Value.null)] [107])
    0 1 32 32 ⟨[([107], Value.null)]⟩ Value.null nullBytes 16
    (sessionOf [([107], Value.null)] [107]).memory hk rfl hf rfl rfl ha hp hp
  have hl1 := length_writeAt_accepted _ 16 nullBytes ha
  have hl2 := length_writeAt_accepted
    (writeAt (sessionOf [([107], Value.null)] [107]).memory (16 : Int).toNat nullBytes)
    32 (leBytes 4 (16 : Int).toNat) (by rw [hl1]; exact hp)
  have hsame := bytesAt_writeAt_same
    (writeAt (writeAt (sessionOf [([107], Value.null)] [107]).memory (16 : Int).toNat nullBytes)
      (32 : Int).toNat (leBytes 4 (16 : Int).toNat))
    (32 : Int).toNat (leBytes 4 nullBytes.length)
    (by rw [hl2, hl1, hlen]; decide)
  refine ⟨_, h, hsame, ?_⟩
  have hne : leBytes 4 4 ≠ leBytes 4 16 := by decide
  intro hcontra
  exact hne (hsame.symm.trans hcontra)

/-- Claim C6, amended. Let the key range pass the bounds check, the key be
present in the bound event, and its value (null included) serialise to the
bytes `d`; let the guest allocator, called with `len(d)`, return the address
`a`, leaving guest memory as `mem1`; let `[a, a+len(d))`, `[out_ptr_addr, +4)`
and `[out_len_addr, +4)` pass the bounds check on `mem1` (each ends before the
last byte of memory) and be pairwise disjoint. Then `elastic_get_field`
returns `OK`, and afterwards guest memory holds `d` at `[a, a+len(d))`, the
4-byte little-endian encoding of `a` at `out_ptr_addr` and that of `len(d)` at
`out_len_addr`; the event is unchanged. -/
theorem elastic_get_field_writes_payload {ε ν : Type} (env : Env ε ν) (hc : session ε)
    (keyPtr keyLen rtnPtr rtnLen : Int) (ev : ε) (v : ν) (d : List Byte) (a : Int) (mem1 : Mem)
    (hk : Accepted hc.memory.length keyPtr keyLen)
    (he : hc.event = some ev)
    (hf : env.GetField ev (bytesAt hc.memory keyPtr.toNat keyLen.toNat) = (v, true))
    (hd : env.Marshal v = Except.ok d)
    (hmal : env.malloc hc.memory d.length = (Except.ok (wasmerValue.I32 a), mem1))
    (ha : Accepted mem1.length a d.length)
    (hp : Accepted mem1.length rtnPtr 4) (hl : Accepted mem1.length rtnLen 4)
    (h1 : Apart a d.length rtnPtr 4) (h2 : Apart a d.length rtnLen 4)
    (h3 : Apart rtnPtr 4 rtnLen 4) :
    ∃ hc1 : session ε,
      elastic_get_field env hc keyPtr keyLen rtnPtr rtnLen = (Res.ok StatusOK, hc1) ∧
      bytesAt hc1.memory a.toNat d.length = d ∧
      bytesAt hc1.memory rtnPtr.toNat 4 = leBytes 4 a.toNat ∧
      bytesAt hc1.memory rtnLen.toNat 4 = leBytes 4 d.length ∧
      hc1.event = hc.event := by
  have h := elastic_get_field_present env hc keyPtr keyLen rtnPtr rtnLen ev v d a mem1
    hk he hf hd hmal ha hp hl
  have hl1 := length_writeAt_accepted mem1 a d ha
  have hp' : Accepted (writeAt mem1 a.toNat d).length rtnPtr
      ((leBytes 4 a.toNat).length : Int) := by
    rw [hl1, length_leBytes]; exact hp
  have hl2 := length_writeAt_accepted (writeAt mem1 a.toNat d) rtnPtr (leBytes 4 a.toNat) hp'
  obtain ⟨_, ha0, _, ha2, _⟩ := ha
  obtain ⟨_, hp0, _, hp2, _⟩ := hp
  obtain ⟨_, hl0, _, hl2', _⟩ := hl
  unfold Apart at h1 h2 h3
  have w1 : a.toNat + d.length ≤ mem1.length := by omega
  have w2 : rtnPtr.toNat + (leBytes 4 a.toNat).length ≤ (writeAt mem1 a.toNat d).length := by
    rw [hl1, length_leBytes]; omega
  have w3 : rtnLen.toNat + (leBytes 4 d.length).length
      ≤ (writeAt (writeAt mem1 a.toNat d) rtnPtr.toNat (leBytes 4 a.toNat)).length := by
    rw [hl2, hl1, length_leBytes]; omega
  refine ⟨_, h, ?_, ?_, ?_, rfl⟩
  · show bytesAt (writeAt _ _ _) a.toNat d.length = d
    rw [bytesAt_writeAt_apart _ _ _ w3 _ _ (by rw [length_leBytes]; omega),
      bytesAt_writeAt_apart _ _ _ w2 _ _ (by rw [length_leBytes]; omega)]
    exact bytesAt_writeAt_same mem1 a.toNat d w1
  · show bytesAt (writeAt _ _ _) rtnPtr.toNat 4 = leBytes 4 a.toNat
    rw [bytesAt_writeAt_apart _ _ _ w3 _ _ (by rw [length_leBytes]; omega)]
    have := bytesAt_writeAt_same _ rtnPtr.toNat (leBytes 4 a.toNat) w2
    rwa [length_leBytes] at this
  · show bytesAt (writeAt _ _ _) rtnLen.toNat 4 = leBytes 4 d.length
    have := bytesAt_writeAt_same _ rtnLen.toNat (leBytes 4 d.length) w3
    rwa [length_leBytes] at this

/-- Witness of `elastic_get_field_writes_payload`: the field `k` holds null, the
allocator returns 16, and the out-pointers are 32 and 36. -/
theorem elastic_get_field_writes_payload_witness :
    ∃ hc1 : session event,
      elastic_get_field sampleEnv (sessionOf [([107], Value.null)] [107]) 0 1 32 36
        = (Res.ok StatusOK, hc1) ∧
      bytesAt hc1.memory 16 4 = nullBytes ∧
      bytesAt hc1.memory 32 4 = leBytes 4 16 ∧
      bytesAt hc1.memory 36 4 = leBytes 4 4 ∧
      hc1.event = some ⟨[([107], Value.null)]⟩ :=
  elastic_get_field_writes_payload sampleEnv (sessionOf [([107], Value.null)] [107])
    0 1 32 36 ⟨[([107], Value.null)]⟩ Value.null nullBytes 16
    (sessionOf [([107], Value.null)] [107]).memory
    (sample_accepted 0 1 (by decide)) rfl sample_key_present rfl rfl
    (sample_accepted 16 4 (by decide)) (sample_accepted 32 4 (by decide))
    (sample_accepted 36 4 (by decide)) (by decide) (by decide) (by decide)

/-! ## Logging (C7) -/

/-- Claim C7 fails on a message range out of bounds: on a guest memory of one
page, `elastic_log` with the message range `[0, 70000)` returns the error of
`getGuestMemory` as an invocation error, not the status `OK`, and logs
nothing. -/
theorem elastic_log_returns_error_out_of_bounds :
    elastic_log sampleEnv (sessionWith []) 0 0 70000
      = (Res.error "impossible address given size of available memory", sessionWith []) ∧
    (Res.error "impossible address given size of available memory" : Res Status)
      ≠ Res.ok StatusOK := by
  have hl : (sessionWith []).memory.length = 65536 := sessionWith_length _ (by decide)
  have he := getGuestMemory_error_of_reaches_end (sessionWith []).memory 0 70000
    (by rw [hl]; decide) (by rw [hl]; decide) (by decide) (by decide) (by rw [hl]; decide)
  exact ⟨elastic_log_rejected sampleEnv _ 0 0 70000 _ he, by simp⟩

/-- Claim C7, amended. For every log level and every message range that passes
the bounds check of `getGuestMemory`, `elastic_log` returns the status `OK`
(0) as a normal result, not an invocation error; the message handed to the
logger is the bytes of the range, and guest memory and the event are
unchanged. -/
theorem elastic_log_ok_in_bounds {ε ν : Type} (env : Env ε ν) (hc : session ε)
    (level msgAddr msgLen : Int) (h : Accepted hc.memory.length msgAddr msgLen) :
    elastic_log env hc level msgAddr msgLen
      = (Res.ok StatusOK,
          elasticLog env hc level (bytesAt hc.memory msgAddr.toNat msgLen.toNat)) ∧
    StatusOK = 0 ∧
    (elasticLog env hc level (bytesAt hc.memory msgAddr.toNat msgLen.toNat)).memory
      = hc.memory ∧
    (elasticLog env hc level (bytesAt hc.memory msgAddr.toNat msgLen.toNat)).event
      = hc.event := by
  have hg := getGuestMemory_ok_of_accepted hc.memory msgAddr msgLen h
  have hr := read_of_accepted hc.memory msgAddr msgLen h.2.1 h.2.2.1
  refine ⟨by simp [elastic_log, hg, hr], rfl, ?_, ?_⟩ <;>
    (unfold elasticLog; split <;> rfl)

/-- Witness of `elastic_log_ok_in_bounds`: the message `k` at `[0, 1)` with
level 3. -/
theorem elastic_log_ok_in_bounds_witness :
    (elastic_log sampleEnv (sessionWith ([107] ++ [])) 3 0 1).1 = Res.ok StatusOK :=
  congrArg Prod.fst
    (elastic_log_ok_in_bounds sampleEnv (sessionWith ([107] ++ [])) 3 0 1
      (by rw [sessionWith_length _ (by decide)]; decide)).1

/-! ## The result of `Processor.Process` (C8) -/

/-- Claim C8. For every pool, factory result and event: `Process` returns nil
exactly when `Get` hands out a session and the guest's `process` call on that
session, bound to the event, returns the `i32` status 0 without a fault; when
the call returns any other `i32` status, `Process` returns a non-nil error;
and when the call faults with an error, `Process` returns that same error. -/
theorem Process_returns_nil_iff_status_ok {ε : Type}
    (process : session ε → Res wasmerValue × session ε)
    (pool : sessionPool (session ε)) (New : Option (session ε)) (event : ε) :
    ((Process process pool New event).1 = Res.ok () ↔
      ∃ hc, (pool.Get New).1 = some hc ∧
        (process { hc with event := some event }).1 = Res.ok (wasmerValue.I32 StatusOK)) ∧
    (∀ hc status, (pool.Get New).1 = some hc →
      (process { hc with event := some event }).1 = Res.ok (wasmerValue.I32 status) →
      status ≠ StatusOK →
      (Process process pool New event).1
        = Res.error ("process failed with status " ++ toString status)) ∧
    (∀ hc err, (pool.Get New).1 = some hc →
      (process { hc with event := some event }).1 = Res.error err →
      (Process process pool New event).1 = Res.error err) := by
  unfold Process
  rcases hget : pool.Get New with ⟨_ | hc, pool1⟩
  · simp
  · unfold guestProcess
    rcases hp : process { hc with event := some event } with ⟨r, hc1⟩
    rcases r with r | e | _ | _
    · cases r with
      | I32 s =>
        by_cases hs : s = StatusOK
        · subst hs
          simp only [hp, if_true]
          refine ⟨?_, ?_, ?_⟩
          · constructor
            · intro _
              exact ⟨hc, rfl, by rw [hp]⟩
            · intro _; rfl
          · intro hc2 status h1 h2 h3
            cases h1
            rw [hp] at h2
            simp at h2
            exact absurd h2.symm h3
          · intro hc2 err h1 h2
            cases h1
            rw [hp] at h2
            simp at h2
        · have hs' : ¬ StatusOK = s := fun h => hs h.symm
          simp only [hp, hs', ne_eq, not_false_eq_true, if_true]
          refine ⟨?_, ?_, ?_⟩
          · constructor
            · intro h; cases h
            · rintro ⟨hc2, h1, h2⟩
              cases h1
              rw [hp] at h2
              simp at h2
              exact absurd h2 hs
          · intro hc2 status h1 h2 _
            cases h1
            rw [hp] at h2
            simp at h2
            rw [h2]
          · intro hc2 err h1 h2
            cases h1
            rw [hp] at h2
            simp at h2
      | other =>
        simp only [hp]
        refine ⟨?_, ?_, ?_⟩
        · constructor
          · intro h; cases h
          · rintro ⟨hc2, h1, h2⟩
            cases h1
            rw [hp] at h2
            simp at h2
        · intro hc2 status h1 h2 _
          cases h1
          rw [hp] at h2
          simp at h2
        · intro hc2 err h1 h2
          cases h1
          rw [hp] at h2
          simp at h2
    · simp only [hp]
      refine ⟨?_, ?_, ?_⟩
      · constructor
        · intro h; cases h
        · rintro ⟨hc2, h1, h2⟩
          cases h1
          rw [hp] at h2
          simp at h2
      · intro hc2 status h1 h2 _
        cases h1
        rw [hp] at h2
        simp at h2
      · intro hc2 err h1 h2
        cases h1
        rw [hp] at h2
        simp at h2
        rw [h2]
    · simp only [hp]
      refine ⟨?_, ?_, ?_⟩
      · constructor
        · intro h; cases h
        · rintro ⟨hc2, h1, h2⟩
          cases h1
          rw [hp] at h2
          simp at h2
      · intro hc2 status h1 h2 _
        cases h1
        rw [hp] at h2
        simp at h2
      · intro hc2 err h1 h2
        cases h1
        rw [hp] at h2
        simp at h2
    · simp only [hp]
      refine ⟨?_, ?_, ?_⟩
      · constructor
        · intro h; cases h
        · rintro ⟨hc2, h1, h2⟩
          cases h1
          rw [hp] at h2
          simp at h2
      · intro hc2 status h1 h2 _
        cases h1
        rw [hp] at h2
        simp at h2
      · intro hc2 err h1 h2
        cases h1
        rw [hp] at h2
        simp at h2

/-- Witness of `Process_returns_nil_iff_status_ok`: a guest whose `process` returns
0, run on the one cached session of a pool of capacity 1. -/
theorem Process_returns_nil_iff_status_ok_witness :
    (Process (fun hc => (Res.ok (wasmerValue.I32 StatusOK), hc))
      ⟨[sessionWith []], 1⟩ none (⟨[]⟩ : event)).1 = Res.ok () :=
  (Process_returns_nil_iff_status_ok (fun hc => (Res.ok (wasmerValue.I32 StatusOK), hc))
    ⟨[sessionWith []], 1⟩ none (⟨[]⟩ : event)).1.mpr ⟨sessionWith [], rfl, rfl⟩

/-! ## The session pool (C9, C10) -/

theorem Put_length_le {σ : Type} (p : sessionPool σ) (s : Option σ)
    (h : p.C.length ≤ p.cap) : (p.Put s).C.length ≤ (p.Put s).cap ∧ (p.Put s).cap = p.cap := by
  unfold sessionPool.Put
  cases s with
  | none => exact ⟨h, rfl⟩
  | some s =>
    by_cases hlt : p.C.length < p.cap
    · simp only [hlt, if_true, List.length_append, List.length_singleton]
      exact ⟨hlt, trivial⟩
    · simp only [hlt, if_false]
      exact ⟨h, trivial⟩

theorem Get_length_le {σ : Type} (p : sessionPool σ) (New : Option σ)
    (h : p.C.length ≤ p.cap) :
    (p.Get New).2.C.length ≤ (p.Get New).2.cap ∧ (p.Get New).2.cap = p.cap := by
  unfold sessionPool.Get
  cases hC : p.C with
  | nil => simp only []; exact ⟨by rw [hC]; exact Nat.zero_le _, trivial⟩
  | cons s rest =>
    simp only []
    rw [hC] at h
    exact ⟨by simp only [List.length_cons] at h; omega, trivial⟩

theorem run_length_le {σ : Type} (ops : List (PoolOp σ)) (p : sessionPool σ)
    (h : p.C.length ≤ p.cap) : (p.run ops).C.length ≤ p.cap ∧ (p.run ops).cap = p.cap := by
  induction ops generalizing p with
  | nil => exact ⟨h, rfl⟩
  | cons op ops ih =>
    have hstep : (p.step op).C.length ≤ (p.step op).cap ∧ (p.step op).cap = p.cap := by
      cases op with
      | get New => exact Get_length_le p New h
      | put s => exact Put_length_le p s h
    have := ih (p.step op) hstep.1
    rw [hstep.2] at this
    exact this

/-- Claim C9. With `maxSessions ≥ 0`, `newSessionPool` builds a pool, and after
every finite sequence of `Get` and `Put` calls on it the number of cached idle
sessions is at most `maxSessions`; on every pool, `Put` of a session into a
cache that is at capacity leaves the pool unchanged, and so does `Put(nil)`. -/
theorem pool_never_exceeds_capacity {σ : Type} (seed : σ) (maxSessions : Int)
    (h : 0 ≤ maxSessions) :
    ∃ p0 : sessionPool σ,
      newSessionPool (Except.ok seed) maxSessions = Res.ok p0 ∧
      (∀ ops : List (PoolOp σ), ((p0.run ops).C.length : Int) ≤ maxSessions) ∧
      (∀ (p : sessionPool σ) (s : σ), p.cap ≤ p.C.length → p.Put (some s) = p) ∧
      (∀ p : sessionPool σ, p.Put none = p) := by
  have hneg : ¬ maxSessions < 0 := by omega
  refine ⟨(⟨[], maxSessions.toNat⟩ : sessionPool σ).Put (some seed), ?_, ?_, ?_, ?_⟩
  · simp [newSessionPool, hneg]
  · intro ops
    have h0 := Put_length_le (⟨[], maxSessions.toNat⟩ : sessionPool σ) (some seed)
      (Nat.zero_le _)
    have h1 := run_length_le ops _ h0.1
    rw [h0.2] at h1
    have := h1.1
    simp only at this
    omega
  · intro p s hfull
    have : ¬ p.C.length < p.cap := by omega
    simp [sessionPool.Put, this]
  · intro p
    rfl

/-- Witness of `pool_never_exceeds_capacity`: capacity 1, as in `TestProcess`. -/
theorem pool_never_exceeds_capacity_witness :
    ∃ p0 : sessionPool Nat,
      newSessionPool (Except.ok 7) 1 = Res.ok p0 ∧
      (∀ ops : List (PoolOp Nat), ((p0.run ops).C.length : Int) ≤ 1) ∧
      (∀ (p : sessionPool Nat) (s : Nat), p.cap ≤ p.C.length → p.Put (some s) = p) ∧
      (∀ p : sessionPool Nat, p.Put none = p) :=
  pool_never_exceeds_capacity 7 1 (by decide)

theorem Reachable_nodup {σ : Type} [DecidableEq σ] (st : PoolState σ) (h : Reachable st) :
    (st.pool.C ++ st.held).Nodup := by
  induction h with
  | init seed maxSessions p h =>
    unfold newSessionPool at h
    by_cases hneg : maxSessions < 0
    · simp [hneg] at h
    · simp only [hneg, if_false, Res.ok.injEq] at h
      subst h
      simp only [sessionPool.Put]
      split <;> simp
  | get st New _ fresh ih =>
    unfold sessionPool.Get
    cases hC : st.pool.C with
    | nil =>
      show (st.pool.C ++ (st.held ++ New.toList)).Nodup
      rw [hC] at ih ⊢
      cases New with
      | none => simpa using ih
      | some s =>
        have hs := (fresh s rfl).2
        simp only [List.nil_append] at ih
        simp only [List.nil_append, Option.toList_some]
        exact List.nodup_append.mpr ⟨ih, List.nodup_singleton s, by
          intro a ha1 ha2
          simp only [List.mem_singleton] at ha2
          subst ha2
          exact hs ha1⟩
    | cons s rest =>
      rw [hC] at ih
      simp only [Option.toList_some]
      have hperm : (rest ++ (st.held ++ [s])).Perm (s :: rest ++ st.held) := by
        rw [← List.append_assoc]
        exact List.perm_append_singleton s (rest ++ st.held)
      exact hperm.nodup_iff.mpr ih
  | put st s _ hs ih =>
    unfold sessionPool.Put
    by_cases hlt : st.pool.C.length < st.pool.cap
    · simp only [hlt, if_true]
      have hperm : (st.pool.C ++ [s] ++ st.held.erase s).Perm (st.pool.C ++ st.held) := by
        rw [List.append_assoc]
        exact List.Perm.append_left _ (List.perm_cons_erase hs).symm
      exact hperm.nodup_iff.mpr ih
    · simp only [hlt, if_false]
      exact List.Nodup.sublist
        (List.Sublist.append_left (List.erase_sublist s st.held) st.pool.C) ih

/-- Claim C10. On every pool, `Get` returns the oldest cached session and removes
it from the cache when the cache is non-empty, and otherwise returns what the
factory builds and leaves the cache empty. Consequently, in every state the
processor reaches, a session that `Get` has handed out and that has not been
put back is not in the cache; the session handed out from the cache is not
among those left in it; and of two `Get` calls with no `Put` between them, the
second, when served from the cache, returns a session other than the first. -/
theorem Get_hands_out_cached_session_once {σ : Type} [DecidableEq σ] (st : PoolState σ)
    (h : Reachable st) :
    (∀ (p : sessionPool σ) (New : Option σ) (s : σ) (rest : List σ), p.C = s :: rest →
      p.Get New = (some s, { p with C := rest })) ∧
    (∀ (p : sessionPool σ) (New : Option σ), p.C = [] →
      p.Get New = (New, p) ∧ (p.Get New).2.C = []) ∧
    (∀ s, s ∈ st.held → s ∉ st.pool.C) ∧
    (∀ (New : Option σ) (s : σ), st.pool.C ≠ [] → (st.pool.Get New).1 = some s →
      s ∉ (st.pool.Get New).2.C) ∧
    (∀ (New1 New2 : Option σ) (s1 s2 : σ), (st.pool.Get New1).1 = some s1 →
      (st.pool.Get New1).2.C ≠ [] → ((st.pool.Get New1).2.Get New2).1 = some s2 →
      s1 ≠ s2) := by
  have hnd := Reachable_nodup st h
  have hC : st.pool.C.Nodup := (List.nodup_append.mp hnd).1
  refine ⟨?_, ?_, ?_, ?_, ?_⟩
  · intro p New s rest hp
    simp [sessionPool.Get, hp]
  · intro p New hp
    simp [sessionPool.Get, hp]
  · intro s hs hin
    exact (List.nodup_append.mp hnd).2.2 hin hs
  · intro New s hne hget
    cases hcache : st.pool.C with
    | nil => exact absurd hcache hne
    | cons a rest =>
      rw [hcache] at hC
      simp only [sessionPool.Get, hcache, Option.some.injEq] at hget ⊢
      subst hget
      exact (List.nodup_cons.mp hC).1
  · intro New1 New2 s1 s2 h1 hne h2
    cases hcache : st.pool.C with
    | nil =>
      simp only [sessionPool.Get, hcache] at hne
      exact absurd rfl hne
    | cons a rest =>
      rw [hcache] at hC
      simp only [sessionPool.Get, hcache, Option.some.injEq] at h1 hne h2
      subst h1
      cases rest with
      | nil => exact absurd rfl hne
      | cons b rest2 =>
        simp only [Option.some.injEq] at h2
        subst h2
        intro hab
        subst hab
        exact (List.nodup_cons.mp hC).1 (List.mem_cons_self _ _)

/-- Witness of `Get_hands_out_cached_session_once`: the pool `NewProcessor` builds
with capacity 1 and the seed session 7, after one `Get`. -/
theorem Get_hands_out_cached_session_once_witness :
    Reachable (⟨((⟨[7], 1⟩ : sessionPool Nat).Get none).2,
      [] ++ ((⟨[7], 1⟩ : sessionPool Nat).Get none).1.toList⟩ : PoolState Nat) ∧
    7 ∉ ((⟨[7], 1⟩ : sessionPool Nat).Get none).2.C :=
  ⟨Reachable.get ⟨⟨[7], 1⟩, []⟩ none (Reachable.init 7 1 ⟨[7], 1⟩ rfl)
      (by intro s hs; cases hs),
    (Get_hands_out_cached_session_once
      (⟨((⟨[7], 1⟩ : sessionPool Nat).Get none).2,
        [] ++ ((⟨[7], 1⟩ : sessionPool Nat).Get none).1.toList⟩ : PoolState Nat)
      (Reachable.get ⟨⟨[7], 1⟩, []⟩ none (Reachable.init 7 1 ⟨[7], 1⟩ rfl)
        (by intro s hs; cases hs))).2.2.1 7 (by decide)⟩

/-! ## The bound event during and after a call -/

theorem Warn_event {ε ν : Type} (hc : session ε) (env : Env ε ν) (msg : String) :
    (hc.Warn env msg).event = hc.event := by
  unfold session.Warn
  split <;> rfl

theorem Warn_memory {ε ν : Type} (hc : session ε) (env : Env ε ν) (msg : String) :
    (hc.Warn env msg).memory = hc.memory := by
  unfold session.Warn
  split <;> rfl

theorem guestMalloc_event {ε ν : Type} (env : Env ε ν) (hc : session ε) (size : Int) :
    (guestMalloc env hc size).2.event = hc.event := by
  unfold guestMalloc
  split
  · rfl
  · rfl
  · split <;> rfl

theorem elastic_get_field_event {ε ν : Type} (env : Env ε ν) (hc : session ε)
    (keyPtr keyLen rtnPtr rtnLen : Int) :
    (elastic_get_field env hc keyPtr keyLen rtnPtr rtnLen).2.event = hc.event := by
  unfold elastic_get_field
  cases getGuestMemory hc.memory keyPtr keyLen with
  | error e => exact Warn_event hc env _
  | panic => rfl
  | goexit => rfl
  | ok keyBytes =>
    dsimp only
    cases elasticGetField env hc (keyBytes.read hc.memory) with
    | error e => exact Warn_event hc env _
    | panic => rfl
    | goexit => rfl
    | ok o =>
      cases o with
      | none => rfl
      | some data =>
        dsimp only
        have hm := guestMalloc_event env hc (wrap32 data.length)
        rcases hgm : guestMalloc env hc (wrap32 data.length) with ⟨r, hc1⟩
        rw [hgm] at hm
        dsimp only at hm
        cases r with
        | error e => exact (Warn_event hc1 env _).trans hm
        | panic => exact hm
        | goexit => exact hm
        | ok p =>
          obtain ⟨addr, slice⟩ := p
          dsimp only
          cases getGuestMemory (copy hc1.memory slice data) rtnPtr 4 with
          | error e => exact (Warn_event _ env _).trans hm
          | panic => exact hm
          | goexit => exact hm
          | ok s2 =>
            dsimp only
            cases PutUint32 (copy hc1.memory slice data) s2 (toUint32 addr) with
            | none => exact hm
            | some mem3 =>
              dsimp only
              cases getGuestMemory mem3 rtnLen 4 with
              | error e => exact (Warn_event _ env _).trans hm
              | panic => exact hm
              | goexit => exact hm
              | ok s3 =>
                dsimp only
                cases PutUint32 mem3 s3 (toUint32 (data.length : Int)) with
                | none => exact hm
                | some mem4 => exact hm

theorem elastic_log_event {ε ν : Type} (env : Env ε ν) (hc : session ε)
    (level msgAddr msgLen : Int) :
    (elastic_log env hc level msgAddr msgLen).2.event = hc.event := by
  unfold elastic_log
  cases getGuestMemory hc.memory msgAddr msgLen with
  | error e => rfl
  | panic => rfl
  | goexit => rfl
  | ok msg =>
    dsimp only
    unfold elasticLog
    split <;> rfl

theorem elastic_get_current_time_nanoseconds_event {ε ν : Type} (env : Env ε ν)
    (hc : session ε) (uint64Ptr : Int) :
    (elastic_get_current_time_nanoseconds env hc uint64Ptr).2.event = hc.event := by
  unfold elastic_get_current_time_nanoseconds
  cases getGuestMemory hc.memory uint64Ptr 8 with
  | error e => rfl
  | panic => rfl
  | goexit => rfl
  | ok data =>
    dsimp only
    cases PutUint64 hc.memory data (toUint64 (elasticGetCurrentTimeNanoseconds env hc)) with
    | none => rfl
    | some mem1 => rfl

theorem elasticPutField_bound {ε ν : Type} (env : Env ε ν) (hc : session ε)
    (key value : List Byte) (evt : ε) (h : BoundTo env evt hc.event) :
    BoundTo env evt (elasticPutField env hc key value).2.event := by
  unfold elasticPutField
  generalize runtime_Goexit = g
  cases g with
  | error err => exact h
  | panic => exact h
  | goexit => exact h
  | ok u =>
    cases u
    dsimp only
    cases env.Unmarshal value with
    | error err => exact h
    | ok v =>
      dsimp only
      obtain ⟨ev, he, hev⟩ := h
      rw [he]
      exact ⟨env.PutField ev key v, rfl, Evolves.put ev key v hev⟩

theorem elastic_put_field_bound {ε ν : Type} (env : Env ε ν) (hc : session ε)
    (keyPtr keyLen valuePtr valueLen : Int) (evt : ε) (h : BoundTo env evt hc.event) :
    BoundTo env evt (elastic_put_field env hc keyPtr keyLen valuePtr valueLen).2.event := by
  unfold elastic_put_field
  cases getGuestMemory hc.memory keyPtr keyLen with
  | error e => exact h
  | panic => exact h
  | goexit => exact h
  | ok key =>
    dsimp only
    cases getGuestMemory hc.memory valuePtr valueLen with
    | error e => exact h
    | panic => exact h
    | goexit => exact h
    | ok value =>
      dsimp only
      have hb := elasticPutField_bound env hc (key.read hc.memory) (value.read hc.memory) evt h
      rcases hp : elasticPutField env hc (key.read hc.memory) (value.read hc.memory)
        with ⟨r, hc1⟩
      rw [hp] at hb
      cases r with
      | ok u => cases u; exact hb
      | error err => exact hb
      | panic => exact hb
      | goexit => exact hb

theorem HostCall_run_bound {ε ν : Type} (env : Env ε ν) (hc : session ε) (c : HostCall)
    (evt : ε) (h : BoundTo env evt hc.event) : BoundTo env evt (c.run env hc).2.event := by
  cases c with
  | get_field keyPtr keyLen rtnPtr rtnLen =>
    show BoundTo env evt (elastic_get_field env hc keyPtr keyLen rtnPtr rtnLen).2.event
    rw [elastic_get_field_event]; exact h
  | put_field keyPtr keyLen valuePtr valueLen =>
    exact elastic_put_field_bound env hc keyPtr keyLen valuePtr valueLen evt h
  | log level msgAddr msgLen =>
    show BoundTo env evt (elastic_log env hc level msgAddr msgLen).2.event
    rw [elastic_log_event]; exact h
  | get_current_time_nanoseconds uint64Ptr =>
    show BoundTo env evt (elastic_get_current_time_nanoseconds env hc uint64Ptr).2.event
    rw [elastic_get_current_time_nanoseconds_event]; exact h

theorem runGuest_bound {ε ν : Type} (env : Env ε ν) (guest : Guest) (hc : session ε)
    (evt : ε) (h : BoundTo env evt hc.event) : BoundTo env evt (runGuest env guest hc).2.event := by
  induction guest generalizing hc with
  | ret v => exact h
  | trap err => exact h
  | read k ih => exact ih hc.memory hc h
  | store f k ih => exact ih { hc with memory := f hc.memory } h
  | call c k ih =>
    have hrun := HostCall_run_bound env hc c evt h
    unfold runGuest
    rcases hcall : c.run env hc with ⟨r, hc1⟩
    rw [hcall] at hrun
    dsimp only at hrun
    cases r with
    | ok status => exact ih status hc1 hrun
    | error err => exact hrun
    | panic => exact hrun
    | goexit => exact hrun

theorem observedEvents_bound {ε ν : Type} (env : Env ε ν) (guest : Guest) (hc : session ε)
    (evt : ε) (h : BoundTo env evt hc.event) (o : Option ε)
    (ho : o ∈ observedEvents env guest hc) : BoundTo env evt o := by
  induction guest generalizing hc with
  | ret v => cases ho
  | trap err => cases ho
  | read k ih => exact ih hc.memory hc h ho
  | store f k ih => exact ih { hc with memory := f hc.memory } h ho
  | call c k ih =>
    have hrun := HostCall_run_bound env hc c evt h
    unfold observedEvents at ho
    rcases hcall : c.run env hc with ⟨r, hc1⟩
    rw [hcall] at hrun ho
    dsimp only at hrun
    rcases List.mem_cons.mp ho with h0 | h1
    · rw [h0]; exact h
    · cases r with
      | ok status => exact ih status hc1 hrun h1
      | error err => cases h1
      | panic => cases h1
      | goexit => cases h1

theorem guestProcess_snd {ε : Type} (process : session ε → Res wasmerValue × session ε)
    (hc : session ε) (evt : ε) :
    (guestProcess process hc evt).2 = (process { hc with event := some evt }).2 := by
  unfold guestProcess
  dsimp only
  rcases hp : process { hc with event := some evt } with ⟨r, hc1⟩
  rcases r with r | e | _ | _
  · cases r <;> rfl
  · rfl
  · rfl
  · rfl

theorem Process_snd {ε : Type} (process : session ε → Res wasmerValue × session ε)
    (pool : sessionPool (session ε)) (New : Option (session ε)) (event : ε) (hc : session ε)
    (hget : (pool.Get New).1 = some hc) :
    (Process process pool New event).2
      = (pool.Get New).2.Put (some (guestProcess process hc event).2) := by
  unfold Process
  rcases hg : pool.Get New with ⟨o, pool1⟩
  rw [hg] at hget
  dsimp only at hget
  subst hget
  dsimp only
  rcases hp : guestProcess process hc event with ⟨r, hc1⟩
  cases r with
  | ok status =>
    dsimp only
    split <;> rfl
  | error err => rfl
  | panic => rfl
  | goexit => rfl

/-! ## The boundary of the bounds check (C11) -/

/-- Claim C11 at its failing input: on a guest memory of one page the range
`[65533, 65536)` is non-negative, does not overflow and ends with the last
byte of memory (`address + size = m`), yet `getGuestMemory` returns its error:
it compares `address + size` with `DataSize() - 1`. The range one byte lower,
`[65532, 65535)`, is let through. -/
theorem getGuestMemory_rejects_range_ending_at_last_byte :
    (0 : Int) ≤ 65533 ∧ (0 : Int) ≤ 3 ∧ (65533 : Int) + 3 < 2 ^ 31 ∧
    (65533 : Int) + 3 ≤ (pageWith []).length ∧
    getGuestMemory (pageWith []) 65533 3
      = Res.error "impossible address given size of available memory" ∧
    getGuestMemory (pageWith []) 65532 3 = Res.ok ⟨65532, 65535⟩ := by
  have hl : (pageWith []).length = 65536 := pageWith_length [] (by decide)
  refine ⟨by decide, by decide, by decide, by rw [hl]; decide, ?_, ?_⟩
  · exact getGuestMemory_error_of_reaches_end _ 65533 3 (by rw [hl]; decide)
      (by rw [hl]; decide) (by decide) (by decide) (by rw [hl]; decide)
  · exact getGuestMemory_ok_of_accepted _ 65532 3 (by unfold Accepted; rw [hl]; decide)

/-! ## The event a session is bound to (C12) -/

/-- Claim C12 fails on the cached session: a guest whose `process` returns 0 at
once is run by `Process` on the one cached session of a pool of capacity 1,
for an event with the field `k`. `Process` returns nil, and the session it has
put back into the cache is still bound to that event: nothing clears it. -/
theorem Process_leaves_event_bound :
    (Process (runGuest sampleEnv (Guest.ret (wasmerValue.I32 StatusOK)))
      ⟨[sessionWith []], 1⟩ none (⟨[([107], Value.null)]⟩ : event)).1 = Res.ok () ∧
    (Process (runGuest sampleEnv (Guest.ret (wasmerValue.I32 StatusOK)))
      ⟨[sessionWith []], 1⟩ none (⟨[([107], Value.null)]⟩ : event)).2.C.map
        (fun hc => hc.event) = [some ⟨[([107], Value.null)]⟩] ∧
    [some (⟨[([107], Value.null)]⟩ : event)] ≠ [none] := by
  refine ⟨rfl, rfl, by decide⟩

/-- Claim C12, amended. (1) `guestProcess(evt)` replaces the session's bound
event with `evt` before it invokes the guest: its outcome does not depend on
the event bound before, and the guest runs on the session bound to `evt`.
(2) Every host ABI callback during the call finds the session bound to `evt`
(`evt` itself, with the fields the guest has put so far), and so is the session
when the call is over, whatever its outcome. (3) `Process` never clears the
binding: on success, on a non-`OK` status and on a fault alike, the session it
puts back is the very session the guest's call left, whose event reference is
not nil and is still the event of that call; when the cache has room, that
session is the newest entry of the idle cache. -/
theorem guestProcess_rebinds_event_and_Process_keeps_it {ε ν : Type} (env : Env ε ν)
    (guest : Guest) :
    (∀ (process : session ε → Res wasmerValue × session ε) (hc : session ε) (old : Option ε)
        (evt : ε),
      guestProcess process { hc with event := old } evt = guestProcess process hc evt ∧
      (guestProcess process hc evt).2 = (process { hc with event := some evt }).2) ∧
    (∀ (hc : session ε) (evt : ε),
      (∀ o, o ∈ observedEvents env guest { hc with event := some evt } → BoundTo env evt o) ∧
      BoundTo env evt (guestProcess (runGuest env guest) hc evt).2.event) ∧
    (∀ (pool : sessionPool (session ε)) (New : Option (session ε)) (event : ε)
        (hc : session ε),
      (pool.Get New).1 = some hc →
      BoundTo env event (runGuest env guest { hc with event := some event }).2.event ∧
      (runGuest env guest { hc with event := some event }).2.event ≠ none ∧
      (Process (runGuest env guest) pool New event).2
        = (pool.Get New).2.Put (some (runGuest env guest { hc with event := some event }).2) ∧
      ((pool.Get New).2.C.length < (pool.Get New).2.cap →
        (Process (runGuest env guest) pool New event).2.C
          = (pool.Get New).2.C
            ++ [(runGuest env guest { hc with event := some event }).2])) := by
  have hb : ∀ (hc : session ε) (evt : ε),
      BoundTo env evt (runGuest env guest { hc with event := some evt }).2.event := by
    intro hc evt
    exact runGuest_bound env guest _ evt ⟨evt, rfl, Evolves.refl⟩
  have hP : ∀ (pool : sessionPool (session ε)) (New : Option (session ε)) (event : ε)
      (hc : session ε), (pool.Get New).1 = some hc →
      (Process (runGuest env guest) pool New event).2
        = (pool.Get New).2.Put
            (some (runGuest env guest { hc with event := some event }).2) := by
    intro pool New event hc hget
    rw [Process_snd _ pool New event hc hget, guestProcess_snd]
  refine ⟨?_, ?_, ?_⟩
  · intro process hc old evt
    exact ⟨rfl, guestProcess_snd process hc evt⟩
  · intro hc evt
    refine ⟨fun o ho => observedEvents_bound env guest _ evt ⟨evt, rfl, Evolves.refl⟩ o ho, ?_⟩
    rw [guestProcess_snd]
    exact hb hc evt
  · intro pool New event hc hget
    refine ⟨hb hc event, ?_, hP pool New event hc hget, ?_⟩
    · obtain ⟨ev, he, _⟩ := hb hc event
      rw [he]
      exact Option.some_ne_none ev
    · intro hroom
      rw [hP pool New event hc hget]
      simp [sessionPool.Put, hroom]

/-- Witness of `guestProcess_rebinds_event_and_Process_keeps_it`: a guest that logs
the byte at address 0 and returns the status it got, run on the one cached
session of a pool of capacity 1. -/
theorem guestProcess_rebinds_event_and_Process_keeps_it_witness :
    ∃ hc1 : session event,
      BoundTo sampleEnv (⟨[([107], Value.null)]⟩ : event) hc1.event ∧ hc1.event ≠ none ∧
      (Process
          (runGuest sampleEnv
            (Guest.call (HostCall.log 3 0 1) (fun s => Guest.ret (wasmerValue.I32 s))))
          ⟨[sessionWith []], 1⟩ none (⟨[([107], Value.null)]⟩ : event)).2
        = ((⟨[sessionWith []], 1⟩ : sessionPool (session event)).Get none).2.Put
            (some hc1) := by
  have h := (guestProcess_rebinds_event_and_Process_keeps_it sampleEnv
    (Guest.call (HostCall.log 3 0 1) (fun s => Guest.ret (wasmerValue.I32 s)))).2.2
    ⟨[sessionWith []], 1⟩ none (⟨[([107], Value.null)]⟩ : event) (sessionWith []) rfl
  exact ⟨_, h.1, h.2.1, h.2.2.1⟩
